import Mathlib

/-
Verification development for the offline-sync core of the
azure-mobile-apps-js-client repository.

The embedded code is sdk/src/sync/MobileServiceSyncContext.js. Its
collaborators (operations.js, Validate.js, taskRunner.js, pull.js,
push.js, purge.js) are not part of the provided sources; where a claim
depends on them they are modelled from the specification, and each such
definition carries a doc comment starting with: Modelled from the spec.

Promises are embedded as state-passing functions returning
Except SyncError together with the next state. The single-threaded
cooperative scheduling of the task runners means a whole queued unit of
work runs to completion before the next, so one call of the embedded
function corresponds to one queued unit. Store writes are observable in
the batchTrace field, which records every executeBatch call.
-/

namespace AzureSync

/-- The action recorded in a pending operation of the operation table. -/
inductive Action where
  | insert
  | update
  | delete
deriving DecidableEq, Repr

/-- A data record as the application sees it: an optional id field plus an
opaque payload standing for the remaining fields. -/
structure Item where
  id : Option String
  text : String
deriving DecidableEq, Repr

/-- One row of a local data table: table name, record id key, and the item. -/
structure StoredRecord where
  tableName : String
  recId : String
  item : Item
deriving DecidableEq, Repr

/-- A pending operation in the durable operation log, keyed by table and
record id, with the logical order in which it was first logged. -/
structure PendingOp where
  tableName : String
  recId : String
  action : Action
  seq : Nat
deriving DecidableEq, Repr

/-- One entry of an executeBatch call: a data upsert, a data delete, or a
write against the operation log (the logging entry computed by the
operation table manager). -/
inductive BatchOp where
  | upsertData (tableName : String) (item : Item)
  | deleteData (tableName : String) (id : String)
  | upsertLog (op : PendingOp)
  | deleteLog (tableName : String) (id : String)
deriving DecidableEq, Repr

/-- The whole observable state of one sync context together with its local
store. batchTrace records every executeBatch call made so far, so a
theorem can state that a call performs no store write, or exactly one. -/
structure SyncState where
  isInitialized : Bool
  dataTables : List StoredRecord
  opLog : List PendingOp
  nextSeq : Nat
  nextUuid : Nat
  batchTrace : List (List BatchOp)
deriving DecidableEq, Repr

/-- The error taxonomy of the sync core. -/
inductive SyncError where
  | notInitialized
  | validationError (field : String)
  | recordExists (id : String)
  | recordNotFound
  | opCollision
  | purgeConflict
  | stepFailure (step : String)
deriving DecidableEq, Repr

/-- An opaque query descriptor; the core only ever extracts the table it
targets and hands the rest through unmodified. -/
structure Query where
  tableName : String
deriving DecidableEq, Repr

/-- A javascript argument position expecting a query object: it can hold
null, a non-object value, or an actual query object. -/
inductive QueryArg where
  | jsNull
  | nonObject
  | obj (q : Query)
deriving DecidableEq, Repr

/-- A request issued against the remote service during push. -/
inductive RemoteRequest where
  | create (tableName : String) (item : Item)
  | modify (tableName : String) (item : Item)
  | remove (tableName : String) (id : String)
deriving DecidableEq, Repr

/-- Does a stored record sit at the given table and record id. -/
def matchesRec (t i : String) (r : StoredRecord) : Bool :=
  r.tableName == t && r.recId == i

/-- Does a pending operation target the given table and record id. -/
def matchesOp (t i : String) (o : PendingOp) : Bool :=
  o.tableName == t && o.recId == i

/-- Store primitive: find the record of a table with the given id. -/
def findRecord (l : List StoredRecord) (t i : String) : Option StoredRecord :=
  l.find? (matchesRec t i)

/-- Store primitive: replace the record at the given key in place, or
append it when the key is new. -/
def upsertRecordList (l : List StoredRecord) (t i : String) (it : Item) :
    List StoredRecord :=
  if l.any (matchesRec t i) then
    l.map (fun r => if matchesRec t i r then ⟨t, i, it⟩ else r)
  else
    l ++ [⟨t, i, it⟩]

/-- Find the pending operation for a table and record id, if any. -/
def findPendingOp (l : List PendingOp) (t i : String) : Option PendingOp :=
  l.find? (matchesOp t i)

/-- All pending operations for a table and record id. -/
def opsFor (l : List PendingOp) (t i : String) : List PendingOp :=
  l.filter (matchesOp t i)

/-- Replace the pending operation at the key of the given operation in
place, or append it when the key is new. -/
def upsertOpList (l : List PendingOp) (p : PendingOp) : List PendingOp :=
  if l.any (matchesOp p.tableName p.recId) then
    l.map (fun o => if matchesOp p.tableName p.recId o then p else o)
  else
    l ++ [p]

/-- Apply one batch entry to the state. -/
def applyBatchOp (s : SyncState) : BatchOp → SyncState
  | .upsertData t it =>
      match it.id with
      | some i => { s with dataTables := upsertRecordList s.dataTables t i it }
      | none => s
  | .deleteData t i =>
      { s with dataTables := s.dataTables.filter (fun r => !(matchesRec t i r)) }
  | .upsertLog p =>
      { s with opLog := upsertOpList s.opLog p, nextSeq := s.nextSeq + 1 }
  | .deleteLog t i =>
      { s with opLog := s.opLog.filter (fun o => !(matchesOp t i o)) }

/-- Store primitive: apply a batch of entries atomically, recording the
call in the trace. -/
def executeBatch (s : SyncState) (ops : List BatchOp) : SyncState :=
  { ops.foldl applyBatchOp s with batchTrace := s.batchTrace ++ [ops] }

/-- Modelled from the spec: Validate.isValidId of the missing Validate.js.
An id is valid when present and not empty. -/
def isValidId : Option String → Bool
  | none => false
  | some s => decide (0 < s.length)

/-- Modelled from the spec: Validate.isString plus Validate.notNullOrEmpty
of the missing Validate.js, applied to table names. -/
def validTableName (t : String) : Bool :=
  decide (0 < t.length)

/-- Modelled from the spec: Validate.isObject and Validate.notNull of the
missing Validate.js applied to a query argument; a null or non-object
query is malformed and raises the validation error. -/
def validateQueryArg : QueryArg → Except SyncError Query
  | .jsNull => .error (.validationError "query")
  | .nonObject => .error (.validationError "query")
  | .obj q => .ok q

/-- Client-side id generation standing in for uuid.v4: deterministic over
the uuid counter of the state. -/
def genUuid (n : Nat) : String :=
  "uuid-" ++ toString n

/-- Modelled from the spec: getLoggingOperation of the missing
operations.js (operation table manager). With no pending entry it logs the
new action; with a pending entry it applies the merge rules of the spec:
pending insert absorbs an update, pending insert cancels against a delete,
pending update turned by a delete into a delete, and a re-insert over any
still-pending entry signals an error. The remaining combinations, a
pending delete followed by update or delete, are left open by the spec and
are modelled as the same collision error. The computed entry is returned
for the caller to persist in its atomic batch; nothing is written here. -/
def getLoggingOperation (s : SyncState) (t : String) (action : Action)
    (i : String) : Except SyncError BatchOp :=
  match findPendingOp s.opLog t i with
  | none => .ok (.upsertLog ⟨t, i, action, s.nextSeq⟩)
  | some p =>
    match p.action, action with
    | _, .insert => .error .opCollision
    | .insert, .update => .ok (.upsertLog p)
    | .insert, .delete => .ok (.deleteLog t i)
    | .update, .update => .ok (.upsertLog p)
    | .update, .delete => .ok (.upsertLog { p with action := .delete })
    | .delete, _ => .error .opCollision

/-- Store primitive: lookup of a record with the suppress flag, as the
external store contract describes it: the found item, none when missing
and suppressed, and the record-not-found error otherwise. -/
def storeLookupFn (s : SyncState) (t i : String) (suppress : Bool) :
    Except SyncError (Option Item) :=
  match findRecord s.dataTables t i with
  | some r => .ok (some r.item)
  | none => if suppress then .ok none else .error .recordNotFound

/-- Store primitive: read all records of the table a query targets. -/
def storeRead (s : SyncState) (q : Query) : List Item :=
  (s.dataTables.filter (fun r => r.tableName == q.tableName)).map (·.item)

/-- Embeds upsertWithLogging of MobileServiceSyncContext.js: validate the
table name and the id, look the record up with suppression, fail with the
record-exists error when it exists and overwrite was not requested, then
obtain the logging entry from the operation table manager and execute one
atomic batch of the data upsert plus the logging entry, resolving with the
instance itself. -/
def upsertWithLogging (s : SyncState) (t : String) (inst : Item)
    (action : Action) (shouldOverwrite : Bool) :
    Except SyncError Item × SyncState :=
  if !(validTableName t) then (.error (.validationError "tableName"), s)
  else match inst.id with
  | none => (.error (.validationError "instance.id"), s)
  | some i =>
    if !(decide (0 < i.length)) then (.error (.validationError "instance.id"), s)
    else
      let existing := findRecord s.dataTables t i
      if existing.isSome && !shouldOverwrite then
        (.error (.recordExists i), s)
      else
        match getLoggingOperation s t action i with
        | .error e => (.error e, s)
        | .ok logOp =>
            (.ok inst, executeBatch s [.upsertData t inst, logOp])

/-- Embeds this.insert of MobileServiceSyncContext.js: inside the store
task runner, check initialization, generate a fresh id when the id is
null, and delegate to upsertWithLogging with action insert and no
overwrite. -/
def insert (s : SyncState) (t : String) (inst : Item) :
    Except SyncError Item × SyncState :=
  if !s.isInitialized then (.error .notInitialized, s)
  else match inst.id with
  | none =>
      let s1 := { s with nextUuid := s.nextUuid + 1 }
      upsertWithLogging s1 t { inst with id := some (genUuid s.nextUuid) }
        .insert false
  | some _ => upsertWithLogging s t inst .insert false

/-- Embeds this.update of MobileServiceSyncContext.js: inside the store
task runner, check initialization and delegate to upsertWithLogging with
action update and shouldOverwrite set. -/
def update (s : SyncState) (t : String) (inst : Item) :
    Except SyncError Item × SyncState :=
  if !s.isInitialized then (.error .notInitialized, s)
  else upsertWithLogging s t inst .update true

/-- Embeds this.del of MobileServiceSyncContext.js: inside the store task
runner, check initialization, validate the table name and the id, obtain
the logging entry for action delete, and execute one atomic batch of the
data delete plus the logging entry. -/
def del (s : SyncState) (t : String) (inst : Item) :
    Except SyncError Unit × SyncState :=
  if !s.isInitialized then (.error .notInitialized, s)
  else if !(validTableName t) then (.error (.validationError "tableName"), s)
  else match inst.id with
  | none => (.error (.validationError "instance.id"), s)
  | some i =>
    if !(decide (0 < i.length)) then (.error (.validationError "instance.id"), s)
    else
      match getLoggingOperation s t .delete i with
      | .error e => (.error e, s)
      | .ok logOp => (.ok (), executeBatch s [.deleteData t i, logOp])

/-- Embeds this.lookup of MobileServiceSyncContext.js: check
initialization, validate the table name and the id, then pass through to
the store lookup with the suppress flag; no batch is executed. -/
def lookup (s : SyncState) (t : String) (id : Option String)
    (suppress : Bool) : Except SyncError (Option Item) × SyncState :=
  if !s.isInitialized then (.error .notInitialized, s)
  else if !(validTableName t) then (.error (.validationError "tableName"), s)
  else match id with
  | none => (.error (.validationError "id"), s)
  | some i =>
    if !(decide (0 < i.length)) then (.error (.validationError "id"), s)
    else (storeLookupFn s t i suppress, s)

/-- Embeds this.read of MobileServiceSyncContext.js: check initialization
first, then validate the query argument, then pass through to the store
read; no batch is executed. -/
def read (s : SyncState) (qa : QueryArg) :
    Except SyncError (List Item) × SyncState :=
  if !s.isInitialized then (.error .notInitialized, s)
  else match validateQueryArg qa with
  | .error e => (.error e, s)
  | .ok q => (.ok (storeRead s q), s)

/-- Modelled from the spec: the pull manager of the missing pull.js, under
an external transport already reduced to the list of remote items the
query fetches; every fetched record is upserted into the local store. -/
def pullManagerPull (s : SyncState) (qa : QueryArg) (remote : List Item) :
    Except SyncError Unit × SyncState :=
  match validateQueryArg qa with
  | .error e => (.error e, s)
  | .ok q =>
      (.ok (), executeBatch s (remote.map (fun it => BatchOp.upsertData q.tableName it)))

/-- Embeds this.pull of MobileServiceSyncContext.js: inside the sync task
runner, check initialization and delegate to the pull manager. -/
def pull (s : SyncState) (qa : QueryArg) (remote : List Item) :
    Except SyncError Unit × SyncState :=
  if !s.isInitialized then (.error .notInitialized, s)
  else pullManagerPull s qa remote

/-- Modelled from the spec: the translation the push manager of the
missing push.js applies to one pending operation, with insert becoming a
remote create carrying the current local record, update a remote modify,
and delete a remote removal by id; an insert or update whose local record
is gone issues nothing. -/
def requestFor (s : SyncState) (p : PendingOp) : List RemoteRequest :=
  match p.action with
  | .delete => [.remove p.tableName p.recId]
  | .insert =>
      match findRecord s.dataTables p.tableName p.recId with
      | some r => [.create p.tableName r.item]
      | none => []
  | .update =>
      match findRecord s.dataTables p.tableName p.recId with
      | some r => [.modify p.tableName r.item]
      | none => []

/-- Modelled from the spec: the push manager of the missing push.js under
an always-accepting transport: every pending operation is replayed in log
order and retired; the issued remote requests are the observable output. -/
def pushAll (s : SyncState) : List RemoteRequest × SyncState :=
  ((s.opLog.map (requestFor s)).flatten, { s with opLog := [] })

/-- Embeds this.push of MobileServiceSyncContext.js: inside the sync task
runner, check initialization and delegate to the push manager. -/
def push (s : SyncState) : Except SyncError (List RemoteRequest) × SyncState :=
  if !s.isInitialized then (.error .notInitialized, s)
  else
    let p := pushAll s
    (.ok p.1, p.2)

/-- Modelled from the spec: the purge manager of the missing purge.js. A
regular purge fails with the purge-conflict error when any pending
operation references the purged table; a forced purge also drops the
pending operations of the table. -/
def purgeManagerPurge (s : SyncState) (q : Query) (force : Bool) :
    Except SyncError Unit × SyncState :=
  if !force && s.opLog.any (fun o => o.tableName == q.tableName) then
    (.error .purgeConflict, s)
  else
    (.ok (), { s with
      dataTables := s.dataTables.filter (fun r => !(r.tableName == q.tableName)),
      opLog := if force then s.opLog.filter (fun o => !(o.tableName == q.tableName))
               else s.opLog })

/-- Embeds this.purge of MobileServiceSyncContext.js: inside the sync task
runner, validate the query argument and the optional force flag FIRST,
check initialization only afterwards, then delegate to the purge
manager with the force flag defaulting to false. -/
def purge (s : SyncState) (qa : QueryArg) (forcePurge : Option Bool) :
    Except SyncError Unit × SyncState :=
  match validateQueryArg qa with
  | .error e => (.error e, s)
  | .ok q =>
    if !s.isInitialized then (.error .notInitialized, s)
    else purgeManagerPurge s q (forcePurge.getD false)

/-- The outcomes of the initialization steps whose code is outside the
provided sources: validation of the local store object, the initialize of
the operation table manager, and the cursor-loading initialize of the pull
manager. -/
structure InitSteps where
  storeValid : Bool
  opManagerInitOk : Bool
  pullInitOk : Bool
deriving DecidableEq, Repr

/-- Embeds this.initialize of MobileServiceSyncContext.js as a function of
the step outcomes: the store is validated, the operation table manager is
built and initialized, the managers are constructed, the pull manager
loads its cursors, and only after all of that succeeds is isInitialized
set; a failing step short-circuits the chain and leaves the flag as it
was. -/
def initializeCtx (s : SyncState) (steps : InitSteps) :
    Except SyncError Unit × SyncState :=
  if !steps.storeValid then (.error (.validationError "localStore"), s)
  else if !steps.opManagerInitOk then
    (.error (.stepFailure "operationTableManager"), s)
  else if !steps.pullInitOk then (.error (.stepFailure "pullManager"), s)
  else (.ok (), { s with isInitialized := true })

/-- Embeds the reference semantics of this.insert for the aliasing claim:
the instance argument is a reference into a heap of items; the statement
assigning uuid.v4() to the id field mutates the referenced cell in place
(and the mutation persists even when the rest of the call fails), and a
successful call resolves with the very same reference it was given. -/
def insertRef (s : SyncState) (h : List Item) (t : String) (r : Nat) :
    Except SyncError Nat × List Item × SyncState :=
  if !s.isInitialized then (.error .notInitialized, h, s)
  else match h.get? r with
  | none => (.error (.validationError "instance"), h, s)
  | some it =>
    match it.id with
    | none =>
        let it2 := { it with id := some (genUuid s.nextUuid) }
        let h2 := h.set r it2
        let s1 := { s with nextUuid := s.nextUuid + 1 }
        match upsertWithLogging s1 t it2 .insert false with
        | (.ok _, s2) => (.ok r, h2, s2)
        | (.error e, s2) => (.error e, h2, s2)
    | some _ =>
        match upsertWithLogging s t it .insert false with
        | (.ok _, s2) => (.ok r, h, s2)
        | (.error e, s2) => (.error e, h, s2)

/-- Is the outcome a rejection with some validation error. -/
def isValidationErr {α : Type} : Except SyncError α → Bool
  | .error (.validationError _) => true
  | _ => false

/-- Does a remote request carry the record of the given table and id. -/
def touchesReq (t i : String) : RemoteRequest → Bool
  | .create tb it => tb == t && it.id == some i
  | .modify tb it => tb == t && it.id == some i
  | .remove tb j => tb == t && j == i

/-- Store consistency: every stored record carries its own key as id. -/
def wfRecords (l : List StoredRecord) : Prop :=
  ∀ r ∈ l, r.item.id = some r.recId

/-- Store consistency lifted to the whole state. -/
def wfStore (s : SyncState) : Prop :=
  wfRecords s.dataTables

/-- A freshly constructed, not yet initialized context with an empty
store. -/
def emptyUninit : SyncState :=
  ⟨false, [], [], 0, 0, []⟩

/-- An initialized context over an empty store. -/
def emptyInit : SyncState :=
  ⟨true, [], [], 0, 0, []⟩

theorem isInitialized_applyBatchOp (s : SyncState) (b : BatchOp) :
    (applyBatchOp s b).isInitialized = s.isInitialized := by
  cases b with
  | upsertData t it => rcases it with ⟨oid, tx⟩; cases oid <;> rfl
  | deleteData t i => rfl
  | upsertLog p => rfl
  | deleteLog t i => rfl

theorem isInitialized_foldl_applyBatchOp (l : List BatchOp) (s : SyncState) :
    (l.foldl applyBatchOp s).isInitialized = s.isInitialized := by
  induction l generalizing s with
  | nil => rfl
  | cons a l ih => rw [List.foldl_cons, ih, isInitialized_applyBatchOp]

theorem isInitialized_executeBatch (s : SyncState) (l : List BatchOp) :
    (executeBatch s l).isInitialized = s.isInitialized := by
  simpa [executeBatch] using isInitialized_foldl_applyBatchOp l s

/-- C1 counterexample: invoked on a context that has not completed
initialization, with a null query argument, purge rejects with the
validation error and not with the not-initialized error the claim
names. -/
theorem purge_uninit_null_query_rejects_validation :
    purge emptyUninit .jsNull none =
      (.error (.validationError "query"), emptyUninit) ∧
    SyncError.validationError "query" ≠ SyncError.notInitialized := by
  exact ⟨rfl, by decide⟩

/-- C1 (amended): invoked before initialization completes, insert,
update, del, lookup, read, pull and push reject with the not-initialized
error, and purge rejects with the not-initialized error whenever its query
argument passes validation and with that validation error otherwise; in
every case the state, its store data and its batch trace included, is
completely unchanged. -/
theorem uninitialized_ops_reject_without_store_write (s : SyncState)
    (h : s.isInitialized = false) :
    (∀ t inst, insert s t inst = (.error .notInitialized, s)) ∧
    (∀ t inst, update s t inst = (.error .notInitialized, s)) ∧
    (∀ t inst, del s t inst = (.error .notInitialized, s)) ∧
    (∀ t oid sup, lookup s t oid sup = (.error .notInitialized, s)) ∧
    (∀ qa, read s qa = (.error .notInitialized, s)) ∧
    (∀ qa remote, pull s qa remote = (.error .notInitialized, s)) ∧
    (push s = (.error .notInitialized, s)) ∧
    (∀ qa f, purge s qa f =
      (match validateQueryArg qa with
       | .ok _ => Except.error SyncError.notInitialized
       | .error e => Except.error e, s)) := by
  refine ⟨?_, ?_, ?_, ?_, ?_, ?_, ?_, ?_⟩
  · intro t inst; cases hi : inst.id <;> simp [insert, h, hi]
  · intro t inst; simp [update, h]
  · intro t inst; simp [del, h]
  · intro t oid sup; simp [lookup, h]
  · intro qa; simp [read, h]
  · intro qa remote; cases qa <;> simp [pull, pullManagerPull, h, validateQueryArg]
  · simp [push, h]
  · intro qa f; cases qa <;> simp [purge, validateQueryArg, h]

/-- C1 witness at a concrete uninitialized context. -/
theorem uninitialized_ops_reject_witness :
    insert emptyUninit "todo" ⟨none, "a"⟩ =
      (.error .notInitialized, emptyUninit) := by
  have h := uninitialized_ops_reject_without_store_write emptyUninit rfl
  exact h.1 "todo" ⟨none, "a"⟩

/-- C9: purge validates its query argument before checking
initialization, so on an uninitialized context purge with a null or
non-object query rejects with the validation error, while insert, update
and del on an uninitialized context reject with the not-initialized error
whatever their arguments. -/
theorem purge_validates_query_before_initialization (s : SyncState)
    (h : s.isInitialized = false) :
    (∀ f, purge s .jsNull f = (.error (.validationError "query"), s)) ∧
    (∀ f, purge s .nonObject f = (.error (.validationError "query"), s)) ∧
    (∀ t inst, insert s t inst = (.error .notInitialized, s)) ∧
    (∀ t inst, update s t inst = (.error .notInitialized, s)) ∧
    (∀ t inst, del s t inst = (.error .notInitialized, s)) := by
  refine ⟨?_, ?_, ?_, ?_, ?_⟩
  · intro f; simp [purge, validateQueryArg]
  · intro f; simp [purge, validateQueryArg]
  · intro t inst; cases hi : inst.id <;> simp [insert, h, hi]
  · intro t inst; simp [update, h]
  · intro t inst; simp [del, h]

/-- C9 witness at a concrete uninitialized context. -/
theorem purge_validates_query_before_initialization_witness :
    purge emptyUninit .nonObject (some true) =
      (.error (.validationError "query"), emptyUninit) := by
  have h := purge_validates_query_before_initialization emptyUninit rfl
  exact h.2.1 (some true)

/-- C3: on an initialized context, insert of an instance whose id already
names a stored record rejects with the record-exists error and leaves the
state, data, operation log and batch trace included, unchanged. -/
theorem insert_existing_record_rejects_without_write (s : SyncState)
    (t : String) (inst : Item) (i : String) (r : StoredRecord)
    (hinit : s.isInitialized = true) (ht : validTableName t = true)
    (hid : inst.id = some i) (hlen : 0 < i.length)
    (hex : findRecord s.dataTables t i = some r) :
    insert s t inst = (.error (.recordExists i), s) := by
  simp [insert, hinit, hid, upsertWithLogging, ht, hlen, hex]

/-- C3 witness: a store already holding the record. -/
theorem insert_existing_record_rejects_witness :
    insert ⟨true, [⟨"todo", "id1", ⟨some "id1", "a"⟩⟩], [], 0, 0, []⟩
        "todo" ⟨some "id1", "b"⟩ =
      (.error (.recordExists "id1"),
       ⟨true, [⟨"todo", "id1", ⟨some "id1", "a"⟩⟩], [], 0, 0, []⟩) := by
  exact insert_existing_record_rejects_without_write _ "todo" _ "id1"
    ⟨"todo", "id1", ⟨some "id1", "a"⟩⟩ rfl (by decide) rfl (by decide) rfl

/-- C5: on an initialized context, update with a valid table name and id
succeeds whether or not a record with that id is present in the store:
whenever the operation table manager yields a logging entry, the call
resolves with the instance and performs exactly the one atomic batch of
the data upsert plus that entry, with no hypothesis on the record being
present. -/
theorem update_overwrites_regardless_of_existing (s : SyncState)
    (t : String) (inst : Item) (i : String) (lop : BatchOp)
    (hinit : s.isInitialized = true) (ht : validTableName t = true)
    (hid : inst.id = some i) (hlen : 0 < i.length)
    (hlog : getLoggingOperation s t .update i = .ok lop) :
    update s t inst = (.ok inst, executeBatch s [.upsertData t inst, lop]) := by
  simp [update, hinit, upsertWithLogging, ht, hid, hlen, hlog]

/-- C5 witness: the record is absent from the store, and update still
performs the upsert batch. -/
theorem update_overwrites_witness :
    update emptyInit "todo" ⟨some "id1", "b"⟩ =
      (.ok ⟨some "id1", "b"⟩,
       executeBatch emptyInit
         [.upsertData "todo" ⟨some "id1", "b"⟩,
          .upsertLog ⟨"todo", "id1", .update, 0⟩]) := by
  exact update_overwrites_regardless_of_existing emptyInit "todo"
    ⟨some "id1", "b"⟩ "id1" (.upsertLog ⟨"todo", "id1", .update, 0⟩)
    rfl (by decide) rfl (by decide) rfl

/-- C7: on an initialized context and with valid arguments, lookup and
read leave the state completely unchanged, batch trace included, and their
results are exactly the read-through of the store lookup with the suppress
flag and of the store read for the query. -/
theorem lookup_read_are_pure (s : SyncState) (t i : String) (sup : Bool)
    (q : Query) (hinit : s.isInitialized = true)
    (ht : validTableName t = true) (hlen : 0 < i.length) :
    lookup s t (some i) sup = (storeLookupFn s t i sup, s) ∧
    read s (.obj q) = (.ok (storeRead s q), s) := by
  constructor
  · simp [lookup, hinit, ht, hlen]
  · simp [read, hinit, validateQueryArg]

/-- C7 witness on a one-record store. -/
theorem lookup_read_are_pure_witness :
    lookup ⟨true, [⟨"todo", "id1", ⟨some "id1", "a"⟩⟩], [], 0, 0, []⟩
        "todo" (some "id1") false =
      (.ok (some ⟨some "id1", "a"⟩),
       ⟨true, [⟨"todo", "id1", ⟨some "id1", "a"⟩⟩], [], 0, 0, []⟩) := by
  have h := lookup_read_are_pure
    ⟨true, [⟨"todo", "id1", ⟨some "id1", "a"⟩⟩], [], 0, 0, []⟩
    "todo" "id1" false ⟨"todo"⟩ rfl (by decide) (by decide)
  exact h.1.trans (by rfl)

/-- C8: on an initialized context, update and del of an instance whose id
is null reject with a validation error and leave the state unchanged; in
particular the uuid counter does not move, so no id is generated. Only
insert fills a missing id in. -/
theorem update_del_null_id_reject_validation (s : SyncState) (t tx : String)
    (hinit : s.isInitialized = true) :
    isValidationErr (update s t ⟨none, tx⟩).1 = true ∧
    (update s t ⟨none, tx⟩).2 = s ∧
    isValidationErr (del s t ⟨none, tx⟩).1 = true ∧
    (del s t ⟨none, tx⟩).2 = s := by
  cases hvt : validTableName t <;>
    simp [update, del, upsertWithLogging, hinit, hvt, isValidationErr]

/-- C8 witness at a concrete initialized context. -/
theorem update_del_null_id_reject_witness :
    isValidationErr (update emptyInit "todo" ⟨none, "a"⟩).1 = true ∧
    (del emptyInit "todo" ⟨none, "a"⟩).2 = emptyInit := by
  have h := update_del_null_id_reject_validation emptyInit "todo" "a" rfl
  exact ⟨h.1, h.2.2.2⟩

theorem genUuid_length_pos (n : Nat) : 0 < (genUuid n).length := by
  simp [genUuid, String.length_append]
  left; decide

/-- C4: on an initialized context, insert with valid arguments: when the
id of the instance is null, the freshly generated id is assigned before
any store access, so the lookup, the logging entry and the upsert all use
the augmented instance, and a successful call performs exactly one atomic
executeBatch holding the data upsert of the augmented instance together
with the logging entry for action insert, resolving with the id-augmented
instance; when the id is already present the same single batch is executed
for the instance as given and the call resolves with the unchanged
instance. The batch-trace conjuncts pin the write count: the trace grows
by exactly that one batch. -/
theorem insert_assigns_fresh_id_single_batch (s : SyncState) (t : String)
    (inst : Item) (hinit : s.isInitialized = true)
    (ht : validTableName t = true) :
    (inst.id = none →
     findRecord s.dataTables t (genUuid s.nextUuid) = none →
     findPendingOp s.opLog t (genUuid s.nextUuid) = none →
     insert s t inst =
       (.ok { inst with id := some (genUuid s.nextUuid) },
        executeBatch { s with nextUuid := s.nextUuid + 1 }
          [.upsertData t { inst with id := some (genUuid s.nextUuid) },
           .upsertLog ⟨t, genUuid s.nextUuid, .insert, s.nextSeq⟩]) ∧
     (insert s t inst).2.batchTrace = s.batchTrace ++
       [[.upsertData t { inst with id := some (genUuid s.nextUuid) },
         .upsertLog ⟨t, genUuid s.nextUuid, .insert, s.nextSeq⟩]]) ∧
    (∀ i, inst.id = some i → 0 < i.length →
     findRecord s.dataTables t i = none →
     findPendingOp s.opLog t i = none →
     insert s t inst =
       (.ok inst,
        executeBatch s
          [.upsertData t inst, .upsertLog ⟨t, i, .insert, s.nextSeq⟩]) ∧
     (insert s t inst).2.batchTrace = s.batchTrace ++
       [[.upsertData t inst, .upsertLog ⟨t, i, .insert, s.nextSeq⟩]]) := by
  constructor
  · intro hid hex hop
    have h1 : insert s t inst =
        (.ok { inst with id := some (genUuid s.nextUuid) },
         executeBatch { s with nextUuid := s.nextUuid + 1 }
           [.upsertData t { inst with id := some (genUuid s.nextUuid) },
            .upsertLog ⟨t, genUuid s.nextUuid, .insert, s.nextSeq⟩]) := by
      simp [insert, hinit, hid, upsertWithLogging, ht, genUuid_length_pos,
        hex, getLoggingOperation, hop]
    refine ⟨h1, ?_⟩
    rw [h1]
    simp [executeBatch]
  · intro i hid hlen hex hop
    have h1 : insert s t inst =
        (.ok inst,
         executeBatch s
           [.upsertData t inst, .upsertLog ⟨t, i, .insert, s.nextSeq⟩]) := by
      simp [insert, hinit, hid, upsertWithLogging, ht, hlen, hex,
        getLoggingOperation, hop]
    refine ⟨h1, ?_⟩
    rw [h1]
    simp [executeBatch]

/-- C4 witness on the empty initialized context, exercising both the
null-id insert and the insert with a pre-set id. -/
theorem insert_assigns_fresh_id_witness :
    insert emptyInit "todo" ⟨none, "a"⟩ =
      (.ok ⟨some (genUuid 0), "a"⟩,
       executeBatch ⟨true, [], [], 0, 1, []⟩
         [.upsertData "todo" ⟨some (genUuid 0), "a"⟩,
          .upsertLog ⟨"todo", genUuid 0, .insert, 0⟩]) ∧
    insert emptyInit "todo" ⟨some "id9", "b"⟩ =
      (.ok ⟨some "id9", "b"⟩,
       executeBatch emptyInit
         [.upsertData "todo" ⟨some "id9", "b"⟩,
          .upsertLog ⟨"todo", "id9", .insert, 0⟩]) :=
  ⟨((insert_assigns_fresh_id_single_batch emptyInit "todo" ⟨none, "a"⟩
      rfl (by decide)).1 rfl rfl rfl).1,
   ((insert_assigns_fresh_id_single_batch emptyInit "todo" ⟨some "id9", "b"⟩
      rfl (by decide)).2 "id9" rfl (by decide) rfl rfl).1⟩

theorem isInitialized_upsertWithLogging (s : SyncState) (t : String)
    (inst : Item) (a : Action) (ow : Bool) :
    (upsertWithLogging s t inst a ow).2.isInitialized = s.isInitialized := by
  unfold upsertWithLogging
  repeat' split
  all_goals try simp [isInitialized_executeBatch]
  all_goals split
  all_goals simp [isInitialized_executeBatch]

/-- C6: the initialized flag of the context becomes true exactly when the
whole chain of initialization steps succeeds, a failing step leaves the
state, the flag included, exactly as it was, and no public operation ever
changes the flag, so an initialized context never becomes uninitialized
again and the transition happens at most once. -/
theorem initialized_flag_set_once_after_all_steps :
    (∀ s steps, (initializeCtx s steps).2.isInitialized =
      (s.isInitialized ||
       (steps.storeValid && steps.opManagerInitOk && steps.pullInitOk))) ∧
    (∀ s steps,
      ¬(steps.storeValid = true ∧ steps.opManagerInitOk = true ∧
        steps.pullInitOk = true) →
      (initializeCtx s steps).2 = s) ∧
    (∀ s t inst, (insert s t inst).2.isInitialized = s.isInitialized) ∧
    (∀ s t inst, (update s t inst).2.isInitialized = s.isInitialized) ∧
    (∀ s t inst, (del s t inst).2.isInitialized = s.isInitialized) ∧
    (∀ s t oid sup, (lookup s t oid sup).2.isInitialized = s.isInitialized) ∧
    (∀ s qa, (read s qa).2.isInitialized = s.isInitialized) ∧
    (∀ s qa remote, (pull s qa remote).2.isInitialized = s.isInitialized) ∧
    (∀ s, (push s).2.isInitialized = s.isInitialized) ∧
    (∀ s qa f, (purge s qa f).2.isInitialized = s.isInitialized) := by
  refine ⟨?_, ?_, ?_, ?_, ?_, ?_, ?_, ?_, ?_, ?_⟩
  · intro s steps
    rcases steps with ⟨sv, op, pl⟩
    cases sv <;> cases op <;> cases pl <;> simp [initializeCtx]
  · intro s steps h
    rcases steps with ⟨sv, op, pl⟩
    cases sv
    · rfl
    · cases op
      · rfl
      · cases pl
        · rfl
        · exact absurd ⟨rfl, rfl, rfl⟩ h
  · intro s t inst
    cases hinit : s.isInitialized
    · simp [insert, hinit]
    · cases hi : inst.id <;>
        simp [insert, hinit, hi, isInitialized_upsertWithLogging]
  · intro s t inst
    cases hinit : s.isInitialized <;>
      simp [update, hinit, isInitialized_upsertWithLogging]
  · intro s t inst
    unfold del
    repeat' split
    all_goals simp [isInitialized_executeBatch]
  · intro s t oid sup
    unfold lookup
    repeat' split
    all_goals simp
  · intro s qa
    unfold read
    repeat' split
    all_goals simp
  · intro s qa remote
    unfold pull pullManagerPull
    repeat' split
    all_goals simp [isInitialized_executeBatch]
  · intro s
    cases hinit : s.isInitialized <;> simp [push, pushAll, hinit]
  · intro s qa f
    unfold purge purgeManagerPurge
    repeat' split
    all_goals simp

/-- C6 witness: the empty uninitialized context becomes initialized when
every step succeeds, and stays uninitialized when the pull manager
initialize fails. -/
theorem initialized_flag_witness :
    (initializeCtx emptyUninit ⟨true, true, true⟩).2.isInitialized = true ∧
    (initializeCtx emptyUninit ⟨true, true, false⟩).2 = emptyUninit := by
  have h := initialized_flag_set_once_after_all_steps
  constructor
  · rw [h.1 emptyUninit ⟨true, true, true⟩]; rfl
  · exact h.2.1 emptyUninit ⟨true, true, false⟩ (by simp)

theorem find?_of_filter_eq_singleton {α : Type} (p : α → Bool) (l : List α)
    (x : α) (h : l.filter p = [x]) : l.find? p = some x := by
  induction l with
  | nil => simp at h
  | cons a l ih =>
    cases hp : p a
    · rw [List.filter_cons_of_neg (by simp [hp])] at h
      rw [List.find?_cons_of_neg l (by simp [hp])]
      exact ih h
    · rw [List.filter_cons_of_pos hp] at h
      obtain ⟨rfl, -⟩ := List.cons_eq_cons.mp h
      exact List.find?_cons_of_pos l hp

theorem filter_map_replace {α : Type} (q : α → Bool) (x : α)
    (hx : q x = true) (l : List α) :
    (l.map (fun o => if q o then x else o)).filter q =
      (l.filter q).map (fun _ => x) := by
  induction l with
  | nil => rfl
  | cons a l ih =>
    cases hq : q a
    · simp [hq, ih]
    · simp [hq, hx, ih]

theorem opsFor_upsertOpList (l : List PendingOp) (p old : PendingOp)
    (h : opsFor l p.tableName p.recId = [old]) :
    opsFor (upsertOpList l p) p.tableName p.recId = [p] := by
  have hp : matchesOp p.tableName p.recId p = true := by simp [matchesOp]
  have hmem : old ∈ l.filter (matchesOp p.tableName p.recId) := by
    rw [opsFor] at h
    rw [h]
    exact List.mem_singleton.mpr rfl
  have hany : l.any (matchesOp p.tableName p.recId) = true := by
    rcases List.mem_filter.mp hmem with ⟨hm, hq⟩
    exact List.any_eq_true.mpr ⟨old, hm, hq⟩
  rw [opsFor] at h
  unfold upsertOpList opsFor
  simp only [hany, if_true]
  rw [filter_map_replace _ p hp, h]
  rfl

theorem findRecord_map_replace (l : List StoredRecord) (t i : String)
    (it : Item) (hl : l.any (matchesRec t i) = true) :
    (l.map (fun r => if matchesRec t i r then ⟨t, i, it⟩ else r)).find?
        (matchesRec t i) = some ⟨t, i, it⟩ := by
  have hm : matchesRec t i ⟨t, i, it⟩ = true := by simp [matchesRec]
  induction l with
  | nil => simp at hl
  | cons a l ih =>
    cases ha : matchesRec t i a
    · have hl' : l.any (matchesRec t i) = true := by simpa [ha] using hl
      simpa [ha] using ih hl'
    · simp [ha, hm]

theorem findRecord_upsertRecordList (l : List StoredRecord) (t i : String)
    (it : Item) :
    findRecord (upsertRecordList l t i it) t i = some ⟨t, i, it⟩ := by
  have hm : matchesRec t i ⟨t, i, it⟩ = true := by simp [matchesRec]
  unfold upsertRecordList findRecord
  cases hany : l.any (matchesRec t i)
  · have hnone : l.find? (matchesRec t i) = none := by
      rw [List.find?_eq_none]
      intro x hx hpx
      rw [List.any_eq_true.mpr ⟨x, hx, hpx⟩] at hany
      exact Bool.true_eq_false.mp hany
    simp [hany, List.find?_append, hnone, hm]
  · simp only [hany, if_true]
    exact findRecord_map_replace l t i it hany

theorem wfRecords_upsertRecordList (l : List StoredRecord) (t i : String)
    (it : Item) (hwf : wfRecords l) (hit : it.id = some i) :
    wfRecords (upsertRecordList l t i it) := by
  intro r hr
  unfold upsertRecordList at hr
  cases hany : l.any (matchesRec t i)
  · simp [hany] at hr
    rcases hr with hr | hr
    · exact hwf r hr
    · rw [hr]; exact hit
  · simp only [hany, if_true, List.mem_map] at hr
    obtain ⟨a, ha, heq⟩ := hr
    cases hma : matchesRec t i a
    · simp only [hma] at heq
      simp at heq
      rw [← heq]
      exact hwf a ha
    · rw [hma] at heq
      simp only [if_true] at heq
      rw [← heq]
      exact hit

theorem filter_touches_requestFor (s : SyncState) (hwf : wfStore s)
    (t i : String) (p : PendingOp) :
    (requestFor s p).filter (touchesReq t i) =
      (if matchesOp t i p then requestFor s p else []) := by
  rcases p with ⟨pt, pi, pa, pn⟩
  cases pa
  case delete =>
    cases h : (pt == t && pi == i) <;>
      simp [requestFor, touchesReq, matchesOp, h]
  case insert =>
    simp only [requestFor]
    cases hf : findRecord s.dataTables pt pi with
    | none => simp
    | some r =>
      have hrmem : r ∈ s.dataTables := List.mem_of_find?_eq_some hf
      have hmr : matchesRec pt pi r = true := List.find?_some hf
      have hrid : r.item.id = some r.recId := hwf r hrmem
      have h1 : r.recId = pi := by
        simp [matchesRec] at hmr
        exact hmr.2
      have h2 : touchesReq t i (.create pt r.item) =
          matchesOp t i ⟨pt, pi, .insert, pn⟩ := by
        simp [touchesReq, matchesOp, hrid, h1]
      cases h : matchesOp t i (⟨pt, pi, .insert, pn⟩ : PendingOp) <;>
        simp [h2, h]
  case update =>
    simp only [requestFor]
    cases hf : findRecord s.dataTables pt pi with
    | none => simp
    | some r =>
      have hrmem : r ∈ s.dataTables := List.mem_of_find?_eq_some hf
      have hmr : matchesRec pt pi r = true := List.find?_some hf
      have hrid : r.item.id = some r.recId := hwf r hrmem
      have h1 : r.recId = pi := by
        simp [matchesRec] at hmr
        exact hmr.2
      have h2 : touchesReq t i (.modify pt r.item) =
          matchesOp t i ⟨pt, pi, .update, pn⟩ := by
        simp [touchesReq, matchesOp, hrid, h1]
      cases h : matchesOp t i (⟨pt, pi, .update, pn⟩ : PendingOp) <;>
        simp [h2, h]

theorem filter_flatten_requests (s : SyncState) (hwf : wfStore s)
    (t i : String) (l : List PendingOp) :
    ((l.map (requestFor s)).flatten.filter (touchesReq t i)) =
      ((l.filter (matchesOp t i)).map (requestFor s)).flatten := by
  induction l with
  | nil => rfl
  | cons p l ih =>
    simp only [List.map_cons, List.flatten_cons, List.filter_append, ih]
    rw [filter_touches_requestFor s hwf t i p]
    cases h : matchesOp t i p <;> simp [h]

/-- C2: when the id of an instance already carries a single pending
insert operation, a local update of the same table and id resolves
successfully and leaves that single pending operation in place with its
action still insert, and the following push issues, among the requests
carrying this record, exactly one request, a remote create holding the
latest data of the record, not two requests. -/
theorem pending_insert_absorbs_update_single_create (s : SyncState)
    (t : String) (inst : Item) (i : String) (n : Nat)
    (hinit : s.isInitialized = true) (ht : validTableName t = true)
    (hid : inst.id = some i) (hlen : 0 < i.length)
    (hops : opsFor s.opLog t i = [⟨t, i, .insert, n⟩])
    (hwf : wfStore s) :
    (update s t inst).1 = .ok inst ∧
    opsFor (update s t inst).2.opLog t i = [⟨t, i, .insert, n⟩] ∧
    (pushAll (update s t inst).2).1.filter (touchesReq t i) =
      [.create t inst] := by
  have hfind : findPendingOp s.opLog t i = some ⟨t, i, .insert, n⟩ :=
    find?_of_filter_eq_singleton _ _ _ hops
  have hlog : getLoggingOperation s t .update i =
      .ok (.upsertLog ⟨t, i, .insert, n⟩) := by
    unfold getLoggingOperation
    rw [hfind]
  have hupd : update s t inst =
      (.ok inst,
       executeBatch s [.upsertData t inst, .upsertLog ⟨t, i, .insert, n⟩]) := by
    simp [update, hinit, upsertWithLogging, ht, hid, hlen, hlog]
  have hs2log :
      (executeBatch s
        [.upsertData t inst, .upsertLog ⟨t, i, .insert, n⟩]).opLog =
      upsertOpList s.opLog ⟨t, i, .insert, n⟩ := by
    simp [executeBatch, applyBatchOp, hid]
  have hs2data :
      (executeBatch s
        [.upsertData t inst, .upsertLog ⟨t, i, .insert, n⟩]).dataTables =
      upsertRecordList s.dataTables t i inst := by
    simp [executeBatch, applyBatchOp, hid]
  have h2 : opsFor (executeBatch s
      [.upsertData t inst, .upsertLog ⟨t, i, .insert, n⟩]).opLog t i =
      [⟨t, i, .insert, n⟩] := by
    rw [hs2log]
    exact opsFor_upsertOpList s.opLog ⟨t, i, .insert, n⟩ ⟨t, i, .insert, n⟩ hops
  have hwf2 : wfStore (executeBatch s
      [.upsertData t inst, .upsertLog ⟨t, i, .insert, n⟩]) := by
    rw [wfStore, hs2data]
    exact wfRecords_upsertRecordList s.dataTables t i inst hwf hid
  refine ⟨by rw [hupd], ?_, ?_⟩
  · rw [hupd]
    exact h2
  · rw [hupd]
    simp only [pushAll]
    rw [filter_flatten_requests _ hwf2 t i _]
    have hflt : (executeBatch s
        [.upsertData t inst, .upsertLog ⟨t, i, .insert, n⟩]).opLog.filter
          (matchesOp t i) = [⟨t, i, .insert, n⟩] := h2
    rw [hflt]
    have hfr : findRecord (executeBatch s
        [.upsertData t inst, .upsertLog ⟨t, i, .insert, n⟩]).dataTables t i =
        some ⟨t, i, inst⟩ := by
      rw [hs2data]
      exact findRecord_upsertRecordList _ _ _ _
    simp [requestFor, hfr]

/-- C2 witness: the scenario of the spec, insert of text a already
pending, update to text b, push issuing one create with text b. -/
theorem pending_insert_absorbs_update_witness :
    (update ⟨true, [⟨"todo", "id1", ⟨some "id1", "a"⟩⟩],
        [⟨"todo", "id1", .insert, 0⟩], 1, 0, []⟩
      "todo" ⟨some "id1", "b"⟩).1 = .ok ⟨some "id1", "b"⟩ ∧
    (pushAll (update ⟨true, [⟨"todo", "id1", ⟨some "id1", "a"⟩⟩],
        [⟨"todo", "id1", .insert, 0⟩], 1, 0, []⟩
      "todo" ⟨some "id1", "b"⟩).2).1.filter (touchesReq "todo" "id1") =
      [.create "todo" ⟨some "id1", "b"⟩] := by
  have h := pending_insert_absorbs_update_single_create
    ⟨true, [⟨"todo", "id1", ⟨some "id1", "a"⟩⟩],
      [⟨"todo", "id1", .insert, 0⟩], 1, 0, []⟩
    "todo" ⟨some "id1", "b"⟩ "id1" 0 rfl (by decide) rfl (by decide)
    (by decide) (by intro r hr; simp only [List.mem_singleton] at hr; rw [hr])
  exact ⟨h.1, h.2.2⟩

/-- C10: insert mutates its argument: under the reference-semantics
embedding of insert, when the passed object has a null id the generated id
is written into the very heap cell the caller handed in, and the value the
call resolves with is that same reference, not a copy; reading the
reference afterwards yields the caller object now carrying the id. -/
theorem insert_mutates_caller_object (s : SyncState) (h : List Item)
    (t : String) (r : Nat) (it : Item)
    (hinit : s.isInitialized = true) (ht : validTableName t = true)
    (hget : h.get? r = some it) (hid : it.id = none)
    (hex : findRecord s.dataTables t (genUuid s.nextUuid) = none)
    (hop : findPendingOp s.opLog t (genUuid s.nextUuid) = none) :
    (insertRef s h t r).1 = .ok r ∧
    (insertRef s h t r).2.1 =
      h.set r { it with id := some (genUuid s.nextUuid) } ∧
    (insertRef s h t r).2.1.get? r =
      some { it with id := some (genUuid s.nextUuid) } := by
  have hcall : insertRef s h t r =
      (.ok r, h.set r { it with id := some (genUuid s.nextUuid) },
       executeBatch { s with nextUuid := s.nextUuid + 1 }
         [.upsertData t { it with id := some (genUuid s.nextUuid) },
          .upsertLog ⟨t, genUuid s.nextUuid, .insert, s.nextSeq⟩]) := by
    have hget2 : h[r]? = some it := by
      rw [← List.get?_eq_getElem?]
      exact hget
    simp [insertRef, hinit, hget2, hid, upsertWithLogging, ht,
      genUuid_length_pos, hex, getLoggingOperation, hop]
  refine ⟨by rw [hcall], by rw [hcall], ?_⟩
  rw [hcall]
  show (h.set r _).get? r = _
  rw [List.get?_set_eq, hget]
  rfl

/-- C10 witness on a one-cell heap over the empty initialized context. -/
theorem insert_mutates_caller_object_witness :
    (insertRef emptyInit [⟨none, "a"⟩] "todo" 0).1 = .ok 0 ∧
    (insertRef emptyInit [⟨none, "a"⟩] "todo" 0).2.1.get? 0 =
      some ⟨some (genUuid 0), "a"⟩ := by
  have h := insert_mutates_caller_object emptyInit [⟨none, "a"⟩] "todo" 0
    ⟨none, "a"⟩ rfl (by decide) rfl rfl rfl rfl
  exact ⟨h.1, h.2.2⟩

end AzureSync
